import Mathlib

/-!
# Serverless demultiplexer and inferred-span helpers

A shallow embedding of
* `pkg/aggregator/demultiplexer_serverless.go` (the `ServerlessDemultiplexer`),
* `pkg/serverless/trace/inferredspan/inferred_span.go`
  (`CheckIsInferredSpan`, `FilterFunctionTags`, `IsInferredSpansEnabled`).

Every method of the demultiplexer is embedded as a function that returns, in program
order, the effects the method performs on its collaborators (the flush lock, the worker's
channels, the sample pool, the serializer, the forwarder) together with the way the call
ends (normal return or Go panic).  Values that come back from a collaborator (the batch the
pool hands out, the sketches the worker has stored when the completion channel fires, the
clock) are arguments of the embedded function.
-/

namespace Aggregator

/-- Go `time.Time`, kept as nanoseconds since the epoch. -/
abbrev Time := Int

/-- The `metrics.MetricSample` payload.  The demultiplexer never inspects a sample, it only
moves it; the fields identify the sample. -/
structure MetricSample where
  Name : String
  Value : Int
  Tags : List String
  Timestamp : Int
deriving DecidableEq, Repr

/-- A Go slice: the `len` elements that can be indexed, and the spare cells of the backing
array between `len` and `cap`. -/
structure GoSlice (α : Type) where
  elems : List α
  spare : List α
deriving DecidableEq, Repr

/-- Go `len(s)`. -/
def GoSlice.len {α : Type} (s : GoSlice α) : Nat := s.elems.length

/-- Go `cap(s)`. -/
def GoSlice.cap {α : Type} (s : GoSlice α) : Nat := s.elems.length + s.spare.length

/-- Go `s[i] = v`: an index at or beyond `len(s)` is a run-time panic (`none`). -/
def GoSlice.setIndex {α : Type} (s : GoSlice α) (i : Nat) (v : α) : Option (GoSlice α) :=
  if i < s.len then some { s with elems := s.elems.set i v } else none

/-- Go `s[:n]`: re-slicing up to `n`, which may reach into the spare capacity; `n > cap(s)`
is a run-time panic (`none`). -/
def GoSlice.sliceTo {α : Type} (s : GoSlice α) (n : Nat) : Option (GoSlice α) :=
  if n ≤ s.cap then
    some { elems := (s.elems ++ s.spare).take n, spare := (s.elems ++ s.spare).drop n }
  else none

/-- Go `metrics.MetricSampleBatch`, a slice of samples. -/
abbrev MetricSampleBatch := GoSlice MetricSample

/-- The `metrics.SketchSeries` payload, moved but never inspected by the demultiplexer. -/
structure SketchSeries where
  Name : String
  Tags : List String
  Points : List Int
deriving DecidableEq, Repr

/-- Go `metrics.SketchSeriesList`. -/
abbrev SketchSeriesList := List SketchSeries

/-- Go `TimeSamplerID`. -/
abbrev TimeSamplerID := Int

/-- The embedded `trigger` struct; `blockChan` is the fresh completion channel, identified
with the trigger that owns it. -/
structure trigger where
  time : Time
  waitForSerializer : Bool
deriving DecidableEq, Repr

/-- The `flushTrigger` struct sent to the worker: the trigger, the contents of the sketch
list the worker appends to (as they are when the trigger is sent), and the series sink. -/
structure flushTrigger where
  trigger : trigger
  flushedSketches : List SketchSeriesList
  seriesSink : Nat
deriving DecidableEq, Repr

/-- The effects a demultiplexer method has on its collaborators. -/
inductive Event where
  /-- The statement `d.flushLock.Lock()`. -/
  | lock
  /-- The statement `d.flushLock.Unlock()` (deferred, so it runs when the method ends). -/
  | unlock
  /-- The call `config.Datadog.GetBool(key)` and the value read. -/
  | getBool (key : String) (value : Bool)
  /-- The call `startSendingIterableSeries(serializer, parallel, logPayloads, start)` and the
  sink it opened. -/
  | startSendingIterableSeries (parallel : Bool) (logPayloads : Bool) (start : Time)
      (sink : Nat)
  /-- The statement `d.statsdWorker.flushChan <- trigger`. -/
  | flushChanSend (t : flushTrigger)
  /-- The statement `<-trigger.blockChan`. -/
  | blockChanRecv (t : flushTrigger)
  /-- The first half of `stopIterableSeries`: the sink is told its sender stopped. -/
  | senderStopped (sink : Nat)
  /-- The second half of `stopIterableSeries`: the wait on the consumer's `done` channel. -/
  | doneRecv (sink : Nat)
  /-- The read of `flushedSketches`, the list shared with the worker. -/
  | readFlushedSketches (v : List SketchSeriesList)
  /-- The call `log.DebugfServerless` with the concatenated sketches. -/
  | logDebug (sketches : SketchSeriesList)
  /-- The call `d.serializer.SendSketch(sketches)`. -/
  | sendSketch (sketches : SketchSeriesList)
  /-- The call `d.GetMetricSamplePool().GetBatch()` and the batch handed out. -/
  | getBatch (batch : MetricSampleBatch)
  /-- The statement `d.statsdWorker.samplesChan <- batch`. -/
  | samplesChanSend (batch : MetricSampleBatch)
  /-- The call `d.statsdWorker.stop()`. -/
  | workerStop
  /-- The call `d.forwarder.Stop()`. -/
  | forwarderStop
deriving DecidableEq, Repr

/-- How a call ends: the effects it performed, in order, and the panic value when the call
ended in a Go panic instead of returning. -/
structure Outcome where
  events : List Event
  panicked : Option String
deriving DecidableEq, Repr

/-- The fields of `ServerlessDemultiplexer` that its methods branch on or pass along:
whether `d.forwarder` is non-nil, and the `flushAndSerializeInParallel` setting. -/
structure ServerlessDemultiplexer where
  hasForwarder : Bool
  flushAndSerializeInParallel : Bool
deriving DecidableEq, Repr

/-- What the collaborators answer during one call: the `log_payloads` setting, the sink
opened by `startSendingIterableSeries`, the contents of `flushedSketches` once the worker
has fired the completion channel, the clock, and the batch the pool hands out. -/
structure Env where
  logPayloads : Bool
  sink : Nat
  flushed : List SketchSeriesList
  now : Time
  poolBatch : MetricSampleBatch
deriving DecidableEq, Repr

/-- The modelled body of `stopIterableSeries(seriesSink, done)`.

Modelled from the spec: `stopIterableSeries` is called by `ForceFlushToSerializer` but is not
among the sources; the spec (section 4.4, step 5) says it closes the sink and then waits for
the sink's background consumer to finish. -/
def stopIterableSeries (sink : Nat) : List Event :=
  [Event.senderStopped sink, Event.doneRecv sink]

/-- The loop `for _, s := range flushedSketches { sketches = append(sketches, s...) }`,
started from the nil list. -/
def concatSketches (flushedSketches : List SketchSeriesList) : SketchSeriesList :=
  flushedSketches.foldl (fun sketches s => sketches ++ s) []

/-- The method `ServerlessDemultiplexer.ForceFlushToSerializer(start, waitForSerializer)`. -/
def ForceFlushToSerializer (d : ServerlessDemultiplexer) (env : Env) (start : Time)
    (waitForSerializer : Bool) : Outcome :=
  let seriesSink := env.sink
  let t : flushTrigger :=
    { trigger := { time := start, waitForSerializer := waitForSerializer }
      flushedSketches := []
      seriesSink := seriesSink }
  let sketches := concatSketches env.flushed
  { events :=
      [Event.lock,
       Event.getBool "log_payloads" env.logPayloads,
       Event.startSendingIterableSeries d.flushAndSerializeInParallel env.logPayloads start
         seriesSink,
       Event.flushChanSend t,
       Event.blockChanRecv t]
      ++ stopIterableSeries seriesSink
      ++ [Event.readFlushedSketches env.flushed,
          Event.logDebug sketches]
      ++ (if sketches.length > 0 then [Event.sendSketch sketches] else [])
      ++ [Event.unlock]
    panicked := none }

/-- The method `ServerlessDemultiplexer.Stop(flush)`; `env.now` is what `time.Now()`
returns. -/
def Stop (d : ServerlessDemultiplexer) (env : Env) (flush : Bool) : Outcome :=
  let flushed : List Event :=
    if flush then (ForceFlushToSerializer d env env.now true).events else []
  { events :=
      flushed ++ [Event.workerStop] ++ (if d.hasForwarder then [Event.forwarderStop] else [])
    panicked := none }

/-- The method `ServerlessDemultiplexer.AddTimeSample(sample)`.  The deferred unlock runs
also when the index or slice expression panics. -/
def AddTimeSample (_d : ServerlessDemultiplexer) (env : Env) (sample : MetricSample) :
    Outcome :=
  let batch := env.poolBatch
  match batch.setIndex 0 sample with
  | none =>
    { events := [Event.lock, Event.getBatch batch, Event.unlock]
      panicked := some "runtime error: index out of range [0] with length 0" }
  | some batch1 =>
    match batch1.sliceTo 1 with
    | none =>
      { events := [Event.lock, Event.getBatch batch, Event.unlock]
        panicked := some "runtime error: slice bounds out of range [:1] with capacity 0" }
    | some out =>
      { events := [Event.lock, Event.getBatch batch, Event.samplesChanSend out, Event.unlock]
        panicked := none }

/-- The method `ServerlessDemultiplexer.AddTimeSampleBatch(shard, samples)`. -/
def AddTimeSampleBatch (_d : ServerlessDemultiplexer) (_shard : TimeSamplerID)
    (samples : MetricSampleBatch) : Outcome :=
  { events := [Event.lock, Event.samplesChanSend samples, Event.unlock]
    panicked := none }

/-- The method `ServerlessDemultiplexer.AddCheckSample(sample)`: its body is
`panic("not implemented.")`. -/
def AddCheckSample (_d : ServerlessDemultiplexer) (_sample : MetricSample) : Outcome :=
  { events := [], panicked := some "not implemented." }

/-- The batches put on the ingestion queue `samplesChan` by a run of effects, oldest
first. -/
def samplesChan : List Event → List MetricSampleBatch
  | [] => []
  | Event.samplesChanSend b :: es => b :: samplesChan es
  | _ :: es => samplesChan es

/-- The triggers put on the worker's `flushChan` by a run of effects, oldest first. -/
def flushChan : List Event → List flushTrigger
  | [] => []
  | Event.flushChanSend t :: es => t :: flushChan es
  | _ :: es => flushChan es

/-- The arguments of the `SendSketch` calls made by a run of effects, oldest first. -/
def sendSketchCalls : List Event → List SketchSeriesList
  | [] => []
  | Event.sendSketch s :: es => s :: sendSketchCalls es
  | _ :: es => sendSketchCalls es

/-- The batches acquired from the sample pool by a run of effects, oldest first. -/
def poolAcquisitions : List Event → List MetricSampleBatch
  | [] => []
  | Event.getBatch b :: es => b :: poolAcquisitions es
  | _ :: es => poolAcquisitions es

/-- The state of the demultiplexer's collaborators, as left by the effects performed so
far: the flush lock, the ingestion queue, the flush queue and the calls received by the
serializer, the worker and the forwarder are all functions of the history. -/
structure DemuxState where
  demux : ServerlessDemultiplexer
  history : List Event
deriving DecidableEq, Repr

/-- Runs the effects of a finished call on a state. -/
def DemuxState.after (s : DemuxState) (o : Outcome) : DemuxState :=
  { s with history := s.history ++ o.events }

/-- One call of a method that takes the flush lock, with the answers its collaborators give
during the call. -/
inductive Call where
  /-- A call `ForceFlushToSerializer(start, waitForSerializer)`. -/
  | flush (env : Env) (start : Time) (waitForSerializer : Bool)
  /-- A call `AddTimeSample(sample)`. -/
  | addTimeSample (env : Env) (sample : MetricSample)
  /-- A call `AddTimeSampleBatch(shard, samples)`. -/
  | addTimeSampleBatch (shard : TimeSamplerID) (samples : MetricSampleBatch)
deriving DecidableEq, Repr

/-- The effects of a call, in program order. -/
def Call.events (d : ServerlessDemultiplexer) : Call → List Event
  | Call.flush env start waitForSerializer =>
    (ForceFlushToSerializer d env start waitForSerializer).events
  | Call.addTimeSample env sample => (AddTimeSample d env sample).events
  | Call.addTimeSampleBatch shard samples => (AddTimeSampleBatch d shard samples).events

/-- The shared state of concurrent callers of one demultiplexer: the state of
`d.flushLock` (a `sync.Mutex`) and, for every caller, how many effects of its call it has
performed. -/
structure Sys where
  locked : Bool
  pc : Nat → Nat

/-- The state before any caller has started. -/
def Sys.init : Sys := { locked := false, pc := fun _ => 0 }

/-- Caller `i` performs its next effect.  `Lock` can only be taken when the mutex is free
(otherwise the caller stays blocked and cannot move); `Unlock` frees the mutex (unlocking a
free mutex is a fatal error, no successor); every other effect leaves the mutex alone.
A caller whose call is over has no step.  Waiting on a channel is not modelled: a channel
effect can always be performed, which only adds interleavings. -/
def step (progs : Nat → List Event) (s : Sys) (i : Nat) : Option Sys :=
  match (progs i)[s.pc i]? with
  | none => none
  | some Event.lock =>
    if s.locked then none
    else some { locked := true, pc := Function.update s.pc i (s.pc i + 1) }
  | some Event.unlock =>
    if s.locked then some { locked := false, pc := Function.update s.pc i (s.pc i + 1) }
    else none
  | some _ => some { locked := s.locked, pc := Function.update s.pc i (s.pc i + 1) }

/-- An interleaving: the callers named by the schedule move one after the other. -/
def run (progs : Nat → List Event) : Sys → List Nat → Option Sys
  | s, [] => some s
  | s, i :: rest =>
    match step progs s i with
    | none => none
    | some s1 => run progs s1 rest

/-- A caller that has performed the first `pc` effects of `prog` is inside its critical
section when it has locked once more than it has unlocked. -/
def insideCritical (prog : List Event) (pc : Nat) : Bool :=
  decide ((prog.take pc).count Event.unlock < (prog.take pc).count Event.lock)

end Aggregator

namespace strings

/-- Lexicographic three-way comparison of two strings, character by character. -/
def compareChars : List Char → List Char → Int
  | [], [] => 0
  | [], _ :: _ => -1
  | _ :: _, [] => 1
  | a :: as, b :: bs =>
    if a.toNat < b.toNat then -1
    else if b.toNat < a.toNat then 1
    else compareChars as bs

/-- Go `strings.Compare(a, b)`: `0` when `a == b`, `-1` when `a < b`, `+1` when `a > b`. -/
def Compare (a b : String) : Int := compareChars a.data b.data

/-- Splits around the first occurrence of the non-empty separator `sep`: the text before it
and the text after it; `none` when `sep` does not occur. -/
def cut (sep : List Char) : List Char → Option (List Char × List Char)
  | [] => none
  | c :: cs =>
    if sep.isPrefixOf (c :: cs) then some ([], (c :: cs).drop sep.length)
    else (cut sep cs).map (fun p => (c :: p.1, p.2))

/-- Go `explode(s, n)`: at most `n` pieces of one character each, the last piece holding
the remainder. -/
def explode : List Char → Nat → List (List Char)
  | _, 0 => []
  | [], _ => []
  | c :: cs, 1 => [c :: cs]
  | c :: cs, n + 2 => [c] :: explode cs (n + 1)

/-- The loop of Go `genSplit` for a non-empty separator: at most `n` pieces, the last one
the unsplit remainder. -/
def splitChars (sep : List Char) : Nat → List Char → List (List Char)
  | 0, _ => []
  | 1, s => [s]
  | n + 2, s =>
    match cut sep s with
    | none => [s]
    | some (a, b) => a :: splitChars sep (n + 1) b

/-- Go `strings.SplitN(s, sep, n)` for `n ≥ 0`. -/
def SplitN (s sep : String) (n : Nat) : List String :=
  if sep.data = [] then (explode s.data n).map String.mk
  else (splitChars sep.data n s.data).map String.mk

end strings

namespace InferredSpan

/-- A Go `map[string]string` that is not nil: a finite map with one value per key. -/
abbrev GoMap := AList (fun _ : String => String)

/-- Go `m[k]` on a `map[string]string` that may be nil (`none`): the stored value, or the
empty string when the key is absent or the map is nil. -/
def GoMap.index (m : Option GoMap) (k : String) : String :=
  match m with
  | none => ""
  | some m => (m.lookup k).getD ""

/-- The `pb.Span` fields read by this package; `Meta` may be the nil map. -/
structure Span where
  Service : String
  Name : String
  Resource : String
  Meta : Option GoMap

/-- The constant `tagInferredSpanTagSource`. -/
def tagInferredSpanTagSource : String := "_inferred_span.tag_source"

/-- The constant `functionVersionTagKey`. -/
def functionVersionTagKey : String := "function_version"

/-- The constant `coldStartTagKey`. -/
def coldStartTagKey : String := "cold_start"

/-- The tag-key constants of package `pkg/serverless/tags` that `functionTagsToIgnore`
lists.  Their declarations are not among the sources, so their values are left open. -/
structure TagKeys where
  FunctionARNKey : String
  FunctionNameKey : String
  ExecutedVersionKey : String
  EnvKey : String
  VersionKey : String
  ServiceKey : String
  RuntimeKey : String
  MemorySizeKey : String
  ArchitectureKey : String
deriving DecidableEq, Repr

/-- The package variable `functionTagsToIgnore`. -/
def functionTagsToIgnore (tags : TagKeys) : List String :=
  [tags.FunctionARNKey,
   tags.FunctionNameKey,
   tags.ExecutedVersionKey,
   tags.EnvKey,
   tags.VersionKey,
   tags.ServiceKey,
   tags.RuntimeKey,
   tags.MemorySizeKey,
   tags.ArchitectureKey,
   functionVersionTagKey,
   coldStartTagKey]

/-- The function `CheckIsInferredSpan(span)` for a non-nil `span`. -/
def CheckIsInferredSpan (span : Span) : Bool :=
  strings.Compare (GoMap.index span.Meta tagInferredSpanTagSource) "self" == 0

/-- The function `FilterFunctionTags(input)`; `ddTags` is what
`config.GetConfiguredTags(false)` returns, `none` is the nil map. -/
def FilterFunctionTags (tags : TagKeys) (ddTags : List String) (input : Option GoMap) :
    Option GoMap :=
  match input with
  | none => none
  | some input =>
    let output : GoMap := input.entries.foldl (fun output kv => output.insert kv.1 kv.2) ∅
    let output := ddTags.foldl (fun output tag =>
      let tagParts := strings.SplitN tag ":" 2
      if tagParts.length ≠ 2 then output
      else
        let tagKey := tagParts.getD 0 ""
        output.erase tagKey) output
    let output := (functionTagsToIgnore tags).foldl (fun output tagKey => output.erase tagKey)
      output
    some output

/-- The part of a configured tag before its first colon. -/
def keyBeforeColon (tag : String) : String :=
  String.mk (tag.data.takeWhile (fun c => c ≠ ':'))

end InferredSpan

namespace Aggregator

/-- A demultiplexer with a forwarder, used in the worked examples. -/
def exampleDemux : ServerlessDemultiplexer :=
  { hasForwarder := true, flushAndSerializeInParallel := false }

/-- A sample, used in the worked examples. -/
def exampleSample : MetricSample :=
  { Name := "requests", Value := 7, Tags := ["env:prod"], Timestamp := 100 }

/-- Collaborator answers used in the worked examples: the pool hands out a batch of length 2
and capacity 3, and the worker has stored no sketch. -/
def exampleEnv : Env :=
  { logPayloads := false
    sink := 0
    flushed := []
    now := 120
    poolBatch :=
      { elems := [{ Name := "a", Value := 0, Tags := [], Timestamp := 0 },
                  { Name := "b", Value := 0, Tags := [], Timestamp := 0 }]
        spare := [{ Name := "c", Value := 0, Tags := [], Timestamp := 0 }] } }

/-- A state whose ingestion queue already holds one batch. -/
def exampleState : DemuxState :=
  { demux := exampleDemux
    history :=
      [Event.samplesChanSend
        { elems := [{ Name := "old", Value := 0, Tags := [], Timestamp := 0 }], spare := [] }] }

/-- Concurrent callers of the worked example: caller 0 flushes, caller 1 adds one sample,
every other caller adds a batch. -/
def exampleCalls : Nat → Call
  | 0 => Call.flush exampleEnv 120 true
  | 1 => Call.addTimeSample exampleEnv exampleSample
  | _ => Call.addTimeSampleBatch 3 { elems := [exampleSample], spare := [] }

/-- An interleaving of the worked example: caller 0 runs its whole flush (ten effects), then
caller 1 takes the lock and acquires its batch; its next effect is the enqueue. -/
def exampleSchedule : List Nat := [0, 0, 0, 0, 0, 0, 0, 0, 0, 0, 1, 1]

/-- The batch caller 1 of the worked example enqueues: the sample alone, the rest of the
pool batch as spare capacity. -/
def exampleEnqueued : MetricSampleBatch :=
  { elems := [exampleSample]
    spare := exampleEnv.poolBatch.elems.tail ++ exampleEnv.poolBatch.spare }

/-- Shape of a call that holds the lock from its first effect to its last. -/
def Bracketed (p : List Event) : Prop :=
  ∃ body, p = Event.lock :: (body ++ [Event.unlock])
    ∧ Event.lock ∉ body ∧ Event.unlock ∉ body

/-- Position of a caller strictly between its lock and its unlock. -/
def Holding (progs : Nat → List Event) (s : Sys) (i : Nat) : Prop :=
  0 < s.pc i ∧ s.pc i < (progs i).length

/-- At most one caller is between its lock and its unlock, and the mutex is taken exactly
when there is one. -/
def LockInv (progs : Nat → List Event) (s : Sys) : Prop :=
  (∀ i j, Holding progs s i → Holding progs s j → i = j)
    ∧ (s.locked = true ↔ ∃ i, Holding progs s i)

end Aggregator

namespace strconv

/-- Go `*strconv.NumError`: the failing function, the input and the reason. -/
structure NumError where
  Func : String
  Num : String
  Err : String
deriving DecidableEq, Repr

/-- Go `strconv.ParseBool(str)`: the parsed value and the error (`none` is the nil error).
It accepts `1`, `t`, `T`, `TRUE`, `true`, `True` and `0`, `f`, `F`, `FALSE`, `false`,
`False`; any other string gives `false` and a syntax error. -/
def ParseBool (str : String) : Bool × Option NumError :=
  match str with
  | "1" | "t" | "T" | "TRUE" | "true" | "True" => (true, none)
  | "0" | "f" | "F" | "FALSE" | "false" | "False" => (false, none)
  | _ => (false, some { Func := "ParseBool", Num := str, Err := "invalid syntax" })

end strconv

namespace os

/-- Go `os.Getenv(key)` over an environment in which an unset variable is `none`: the value
of the variable, or the empty string when it is unset. -/
def Getenv (environ : String → Option String) (key : String) : String :=
  (environ key).getD ""

end os

namespace InferredSpan

/-- The function `IsInferredSpansEnabled()`, over the process environment.  The two debug
log lines of the error branches do not affect the result and are left out. -/
def IsInferredSpansEnabled (environ : String → Option String) : Bool :=
  let (traceEnabled, e1) := strconv.ParseBool (os.Getenv environ "DD_TRACE_ENABLED")
  let (managedServiceEnabled, e2) :=
    strconv.ParseBool (os.Getenv environ "DD_TRACE_MANAGED_SERVICES")
  let isEnabled := traceEnabled && managedServiceEnabled
  if e1.isSome then false
  else if e2.isSome then false
  else isEnabled

/-- An environment in which `DD_TRACE_ENABLED` is `true`, `DD_TRACE_MANAGED_SERVICES` is `1`
and nothing else is set. -/
def exampleEnviron : String → Option String :=
  fun key =>
    if key = "DD_TRACE_ENABLED" then some "true"
    else if key = "DD_TRACE_MANAGED_SERVICES" then some "1"
    else none

end InferredSpan

namespace Aggregator

/-- The contract of the sample pool's acquire for a configured batch size.

Modelled from the spec: the pool (`metrics.MetricSamplePool`, `GetBatch`) is not among the
sources, only its construction `metrics.NewMetricSamplePool(MetricSamplePoolBatchSize)` is.
Section 4.1 of the spec says acquire returns a buffer ready for writing, of logical length 0
and capacity equal to the configured batch size.  Ready for writing means that every cell
of the buffer can be written by index, so the Go slice handed out has length and capacity
both equal to the batch size; the logical length (how many cells hold a sample that is
still to be consumed, none at acquire) is not a property of the slice value. -/
def PoolContract (batchSize : Nat) (batch : MetricSampleBatch) : Prop :=
  batch.len = batchSize ∧ batch.cap = batchSize

/-- Collaborator answers in which the pool hands out a buffer under its contract for batch
size 2: length 2, capacity 2. -/
def examplePoolEnv : Env :=
  { exampleEnv with
    poolBatch :=
      { elems := [{ Name := "", Value := 0, Tags := [], Timestamp := 0 },
                  { Name := "", Value := 0, Tags := [], Timestamp := 0 }]
        spare := [] } }

end Aggregator

/-! # Theorems -/

namespace Aggregator

/-! ## The ingestion queue and the sketch concatenation -/

theorem samplesChan_append (a b : List Event) :
    samplesChan (a ++ b) = samplesChan a ++ samplesChan b := by
  induction a with
  | nil => rfl
  | cons e es ih => cases e <;> simp [samplesChan, ih]

theorem foldl_append_eq (acc : SketchSeriesList) (l : List SketchSeriesList) :
    l.foldl (fun sketches s => sketches ++ s) acc = acc ++ l.flatten := by
  induction l generalizing acc with
  | nil => simp
  | cons x xs ih => simp [ih]

theorem concatSketches_eq_flatten (l : List SketchSeriesList) :
    concatSketches l = l.flatten := by
  simp [concatSketches, foldl_append_eq]

theorem concatSketches_length_pos (l : List SketchSeriesList) :
    (concatSketches l).length > 0 ↔ ¬ l.flatten = [] := by
  rw [concatSketches_eq_flatten]
  exact List.length_pos

/-! ## Unsupported check samples -/

/-- C1: what the code does with a check sample.  For every demultiplexer and every check
sample, in particular for the sample `requests` with value 7, `AddCheckSample` ends in the
Go panic `not implemented.`, before any effect on the lock, the queues or the serializer:
the call aborts instead of returning to its caller. -/
theorem AddCheckSample_panics (d : ServerlessDemultiplexer) (sample : MetricSample) :
    (AddCheckSample d sample).panicked = some "not implemented."
      ∧ ¬ (AddCheckSample d sample).panicked = none
      ∧ (AddCheckSample d sample).events = []
      ∧ (AddCheckSample exampleDemux exampleSample).panicked = some "not implemented." :=
  ⟨rfl, by simp [AddCheckSample], rfl, rfl⟩

/-! ## Sketch submission of a flush -/

/-- C2: whatever list of sketch lists the worker has accumulated, the `SendSketch` calls of
one `ForceFlushToSerializer` are: none when the concatenation of the lists is empty, and
otherwise exactly one, whose argument is the concatenation in accumulation order. -/
theorem ForceFlushToSerializer_sendSketch (d : ServerlessDemultiplexer) (env : Env)
    (start : Time) (waitForSerializer : Bool) :
    sendSketchCalls (ForceFlushToSerializer d env start waitForSerializer).events
      = if env.flushed.flatten = [] then [] else [env.flushed.flatten] := by
  by_cases h : env.flushed.flatten = []
  · have h0 : ¬ (concatSketches env.flushed).length > 0 :=
      fun hc => (concatSketches_length_pos env.flushed).mp hc h
    simp [ForceFlushToSerializer, stopIterableSeries, sendSketchCalls, h0, h]
  · have h0 : (concatSketches env.flushed).length > 0 :=
      (concatSketches_length_pos env.flushed).mpr h
    simp only [ForceFlushToSerializer, stopIterableSeries, if_pos h0, if_neg h]
    simp [sendSketchCalls, concatSketches_eq_flatten]

/-! ## The shard argument -/

/-- C3: for every state, batch and two shard values, `AddTimeSampleBatch` has the same
outcome and leaves the same state, and in both cases the ingestion queue gains exactly the
given batch at its end. -/
theorem AddTimeSampleBatch_shard_ignored (s : DemuxState) (shard1 shard2 : TimeSamplerID)
    (samples : MetricSampleBatch) :
    AddTimeSampleBatch s.demux shard1 samples = AddTimeSampleBatch s.demux shard2 samples
      ∧ s.after (AddTimeSampleBatch s.demux shard1 samples)
          = s.after (AddTimeSampleBatch s.demux shard2 samples)
      ∧ samplesChan (s.after (AddTimeSampleBatch s.demux shard1 samples)).history
          = samplesChan s.history ++ [samples]
      ∧ samplesChan (s.after (AddTimeSampleBatch s.demux shard2 samples)).history
          = samplesChan s.history ++ [samples] := by
  refine ⟨rfl, rfl, ?_, ?_⟩ <;>
    simp [DemuxState.after, AddTimeSampleBatch, samplesChan_append, samplesChan]

/-! ## Stop -/

/-- C4: the effects of `Stop(flush)` are those of one `ForceFlushToSerializer(now, true)`
when `flush` is set (none otherwise), then the worker's stop, then the forwarder's stop when
a forwarder is present.  Exactly one trigger reaches the flush queue when `flush` is set and
it asks to wait for the serializer, none otherwise; the flush part holds neither stop, and
the worker is stopped exactly once. -/
theorem Stop_effects (d : ServerlessDemultiplexer) (env : Env) (flush : Bool) :
    (Stop d env flush).events
        = (if flush then (ForceFlushToSerializer d env env.now true).events else [])
          ++ [Event.workerStop]
          ++ (if d.hasForwarder then [Event.forwarderStop] else [])
      ∧ flushChan (Stop d env flush).events
        = (if flush then
            [{ trigger := { time := env.now, waitForSerializer := true }
               flushedSketches := []
               seriesSink := env.sink }]
           else [])
      ∧ (Stop d env flush).events.count Event.lock = (if flush then 1 else 0)
      ∧ Event.workerStop ∉ (ForceFlushToSerializer d env env.now true).events
      ∧ Event.forwarderStop ∉ (ForceFlushToSerializer d env env.now true).events
      ∧ (Stop d env flush).events.count Event.workerStop = 1
      ∧ (Stop d env flush).events.count Event.forwarderStop
          = (if d.hasForwarder then 1 else 0)
      ∧ (Stop d env flush).panicked = none := by
  by_cases hs : (concatSketches env.flushed).length > 0 <;>
    cases flush <;> cases hf : d.hasForwarder <;>
    simp [Stop, ForceFlushToSerializer, stopIterableSeries, flushChan, hs, hf]

/-! ## Order of the steps of a flush -/

/-- C6: the effects of `ForceFlushToSerializer` are, in this order: take the lock, read the
`log_payloads` setting, open the series sink, send one trigger (start time, wait flag,
opened sink, empty sketch list) to the flush queue, wait for its completion channel, tell
the sink its sender stopped, wait for the sink's consumer, read the accumulated sketches,
log them, send them when there are any, release the lock.  Exactly one trigger is sent, and
whenever the sketches are read or sent, both waits are among the earlier effects. -/
theorem ForceFlushToSerializer_order (d : ServerlessDemultiplexer) (env : Env)
    (start : Time) (waitForSerializer : Bool) :
    (ForceFlushToSerializer d env start waitForSerializer).events
        = [Event.lock,
           Event.getBool "log_payloads" env.logPayloads,
           Event.startSendingIterableSeries d.flushAndSerializeInParallel env.logPayloads
             start env.sink,
           Event.flushChanSend
             { trigger := { time := start, waitForSerializer := waitForSerializer }
               flushedSketches := []
               seriesSink := env.sink },
           Event.blockChanRecv
             { trigger := { time := start, waitForSerializer := waitForSerializer }
               flushedSketches := []
               seriesSink := env.sink },
           Event.senderStopped env.sink,
           Event.doneRecv env.sink,
           Event.readFlushedSketches env.flushed,
           Event.logDebug (concatSketches env.flushed)]
          ++ (if (concatSketches env.flushed).length > 0
              then [Event.sendSketch (concatSketches env.flushed)] else [])
          ++ [Event.unlock]
      ∧ flushChan (ForceFlushToSerializer d env start waitForSerializer).events
        = [{ trigger := { time := start, waitForSerializer := waitForSerializer }
             flushedSketches := []
             seriesSink := env.sink }]
      ∧ (∀ (n : Nat) (e : Event),
          (ForceFlushToSerializer d env start waitForSerializer).events[n]? = some e →
          ((∃ v, e = Event.readFlushedSketches v) ∨ (∃ v, e = Event.logDebug v)
            ∨ (∃ v, e = Event.sendSketch v)) →
          Event.blockChanRecv
              { trigger := { time := start, waitForSerializer := waitForSerializer }
                flushedSketches := []
                seriesSink := env.sink }
            ∈ (ForceFlushToSerializer d env start waitForSerializer).events.take n
          ∧ Event.doneRecv env.sink
            ∈ (ForceFlushToSerializer d env start waitForSerializer).events.take n) := by
  refine ⟨?_, ?_, ?_⟩
  · simp [ForceFlushToSerializer, stopIterableSeries]
  · by_cases hs : (concatSketches env.flushed).length > 0 <;>
      simp [ForceFlushToSerializer, stopIterableSeries, flushChan, hs]
  · intro n e hn he
    by_cases hs : (concatSketches env.flushed).length > 0
    · simp only [ForceFlushToSerializer, stopIterableSeries, if_pos hs] at hn ⊢
      rcases n with _ | _ | _ | _ | _ | _ | _ | _ | _ | _ | _ | n <;>
        simp at hn <;> subst hn <;> simp at he ⊢
    · simp only [ForceFlushToSerializer, stopIterableSeries, if_neg hs] at hn ⊢
      rcases n with _ | _ | _ | _ | _ | _ | _ | _ | _ | _ | n <;>
        simp at hn <;> subst hn <;> simp at he ⊢

/-! ## One sample -/

/-- C7: when the pool hands out a batch of length at least 1, `AddTimeSample` returns
normally, acquires exactly one batch from the pool (the one handed out), and the ingestion
queue gains exactly one batch at its end, of length 1, whose only element is the given
sample; what was queued before is unchanged. -/
theorem AddTimeSample_enqueues_one (s : DemuxState) (env : Env) (sample : MetricSample)
    (hlen : 1 ≤ env.poolBatch.len) :
    (AddTimeSample s.demux env sample).panicked = none
      ∧ poolAcquisitions (AddTimeSample s.demux env sample).events = [env.poolBatch]
      ∧ ∃ batch : MetricSampleBatch,
          samplesChan (s.after (AddTimeSample s.demux env sample)).history
            = samplesChan s.history ++ [batch]
          ∧ batch.len = 1 ∧ batch.elems = [sample] := by
  obtain ⟨logPayloads, sink, flushed, now, ⟨elems, spare⟩⟩ := env
  cases elems with
  | nil => simp [GoSlice.len] at hlen
  | cons x xs =>
    have hcap : 1 ≤ xs.length + 1 + spare.length := by omega
    simp [AddTimeSample, hcap, GoSlice.setIndex, GoSlice.sliceTo, GoSlice.len, GoSlice.cap,
      poolAcquisitions, DemuxState.after, samplesChan_append, samplesChan]

/-- Witness for C7: the pool hands out a batch of length 2 and capacity 3 while one batch is
already queued. -/
theorem AddTimeSample_enqueues_one_witness :
    1 ≤ exampleEnv.poolBatch.len
      ∧ (AddTimeSample exampleState.demux exampleEnv exampleSample).panicked = none
      ∧ poolAcquisitions (AddTimeSample exampleState.demux exampleEnv exampleSample).events
          = [exampleEnv.poolBatch]
      ∧ ∃ batch : MetricSampleBatch,
          samplesChan
              (exampleState.after
                (AddTimeSample exampleState.demux exampleEnv exampleSample)).history
            = samplesChan exampleState.history ++ [batch]
          ∧ batch.len = 1 ∧ batch.elems = [exampleSample] :=
  ⟨by decide, AddTimeSample_enqueues_one exampleState exampleEnv exampleSample (by decide)⟩

/-! ## The flush lock under concurrent callers -/

theorem call_bracketed (d : ServerlessDemultiplexer) (c : Call) : Bracketed (c.events d) := by
  cases c with
  | flush env start waitForSerializer =>
    by_cases hs : (concatSketches env.flushed).length > 0
    · refine ⟨[Event.getBool "log_payloads" env.logPayloads,
          Event.startSendingIterableSeries d.flushAndSerializeInParallel env.logPayloads
            start env.sink,
          Event.flushChanSend
            { trigger := { time := start, waitForSerializer := waitForSerializer }
              flushedSketches := []
              seriesSink := env.sink },
          Event.blockChanRecv
            { trigger := { time := start, waitForSerializer := waitForSerializer }
              flushedSketches := []
              seriesSink := env.sink },
          Event.senderStopped env.sink,
          Event.doneRecv env.sink,
          Event.readFlushedSketches env.flushed,
          Event.logDebug (concatSketches env.flushed),
          Event.sendSketch (concatSketches env.flushed)], ?_, by simp, by simp⟩
      simp [Call.events, ForceFlushToSerializer, stopIterableSeries, hs]
    · refine ⟨[Event.getBool "log_payloads" env.logPayloads,
          Event.startSendingIterableSeries d.flushAndSerializeInParallel env.logPayloads
            start env.sink,
          Event.flushChanSend
            { trigger := { time := start, waitForSerializer := waitForSerializer }
              flushedSketches := []
              seriesSink := env.sink },
          Event.blockChanRecv
            { trigger := { time := start, waitForSerializer := waitForSerializer }
              flushedSketches := []
              seriesSink := env.sink },
          Event.senderStopped env.sink,
          Event.doneRecv env.sink,
          Event.readFlushedSketches env.flushed,
          Event.logDebug (concatSketches env.flushed)], ?_, by simp, by simp⟩
      simp [Call.events, ForceFlushToSerializer, stopIterableSeries, hs]
  | addTimeSample env sample =>
    rcases h1 : env.poolBatch.setIndex 0 sample with _ | b1
    · exact ⟨[Event.getBatch env.poolBatch], by simp [Call.events, AddTimeSample, h1],
        by simp, by simp⟩
    · rcases h2 : b1.sliceTo 1 with _ | out
      · exact ⟨[Event.getBatch env.poolBatch], by simp [Call.events, AddTimeSample, h1, h2],
          by simp, by simp⟩
      · exact ⟨[Event.getBatch env.poolBatch, Event.samplesChanSend out],
          by simp [Call.events, AddTimeSample, h1, h2], by simp, by simp⟩
  | addTimeSampleBatch shard samples =>
    exact ⟨[Event.samplesChanSend samples], rfl, by simp, by simp⟩

theorem Bracketed.length_ge {p : List Event} (hp : Bracketed p) : 2 ≤ p.length := by
  obtain ⟨body, rfl, -, -⟩ := hp
  simp

theorem Bracketed.next_lock {p : List Event} (hp : Bracketed p) {pc : Nat}
    (h : p[pc]? = some Event.lock) : pc = 0 := by
  obtain ⟨body, rfl, hl, -⟩ := hp
  cases pc with
  | zero => rfl
  | succ k =>
    exfalso
    rw [List.getElem?_cons_succ] at h
    have hmem : Event.lock ∈ body ++ [Event.unlock] := List.getElem?_mem h
    simp [hl] at hmem

theorem Bracketed.next_unlock {p : List Event} (hp : Bracketed p) {pc : Nat}
    (h : p[pc]? = some Event.unlock) : 0 < pc ∧ pc + 1 = p.length := by
  obtain ⟨body, rfl, -, hu⟩ := hp
  cases pc with
  | zero => simp at h
  | succ k =>
    rw [List.getElem?_cons_succ] at h
    refine ⟨Nat.succ_pos k, ?_⟩
    by_cases hk : k < body.length
    · rw [List.getElem?_append_left hk] at h
      exact absurd (List.getElem?_mem h) hu
    · have hlt : k < (body ++ [Event.unlock]).length := by
        by_contra hcon
        rw [List.getElem?_eq_none (by omega)] at h
        exact Option.noConfusion h
      simp at hlt ⊢
      omega

theorem Bracketed.next_other {p : List Event} (hp : Bracketed p) {pc : Nat} {e : Event}
    (h : p[pc]? = some e) (hl : e ≠ Event.lock) (hu : e ≠ Event.unlock) :
    0 < pc ∧ pc + 1 < p.length := by
  obtain ⟨body, rfl, -, -⟩ := hp
  cases pc with
  | zero => simp at h; exact absurd h.symm hl
  | succ k =>
    rw [List.getElem?_cons_succ] at h
    refine ⟨Nat.succ_pos k, ?_⟩
    by_cases hk : k < body.length
    · simp; omega
    · exfalso
      by_cases hk2 : k = body.length
      · subst hk2
        simp at h
        exact hu h.symm
      · rw [List.getElem?_eq_none (by simp; omega)] at h
        exact Option.noConfusion h

theorem Bracketed.inside_iff {p : List Event} (hp : Bracketed p) (pc : Nat) :
    insideCritical p pc = true ↔ 0 < pc ∧ pc < p.length := by
  obtain ⟨body, rfl, hl, hu⟩ := hp
  cases pc with
  | zero => simp [insideCritical]
  | succ k =>
    have hl0 : ∀ t : List Event, t.Sublist (body ++ [Event.unlock]) →
        t.count Event.lock = 0 := by
      intro t ht
      apply List.count_eq_zero.mpr
      intro hmem
      have := ht.subset hmem
      simp [hl] at this
    by_cases hk : k ≤ body.length
    · have htake : (body ++ [Event.unlock]).take k = body.take k := by
        rw [List.take_append_of_le_length hk]
      have hu0 : (body.take k).count Event.unlock = 0 :=
        List.count_eq_zero.mpr (fun hmem => hu (List.mem_of_mem_take hmem))
      have hl1 := hl0 ((body ++ [Event.unlock]).take k) (List.take_sublist _ _)
      rw [htake] at hl1
      simp [insideCritical, htake, hu0, hl1]
      omega
    · have htake : (body ++ [Event.unlock]).take k = body ++ [Event.unlock] :=
        List.take_of_length_le (by simp; omega)
      have hu0 : body.count Event.unlock = 0 := List.count_eq_zero.mpr hu
      have hl1 : body.count Event.lock = 0 := List.count_eq_zero.mpr hl
      simp [insideCritical, htake, hu0, hl1]
      omega

theorem holding_update (progs : Nat → List Event) (s : Sys) (b : Bool) (i n j : Nat) :
    Holding progs { locked := b, pc := Function.update s.pc i n } j
      ↔ if j = i then 0 < n ∧ n < (progs i).length else Holding progs s j := by
  by_cases hji : j = i
  · subst hji
    simp [Holding]
  · simp [Holding, hji, Function.update_noteq hji]

theorem LockInv.init (progs : Nat → List Event) : LockInv progs Sys.init := by
  refine ⟨?_, ?_⟩
  · intro i j hi _
    exact absurd hi.1 (by simp [Sys.init])
  · constructor
    · intro h
      simp [Sys.init] at h
    · rintro ⟨i, hi⟩
      exact absurd hi.1 (by simp [Sys.init])

theorem LockInv.step_lock {progs : Nat → List Event} (hb : ∀ i, Bracketed (progs i))
    {s : Sys} {i : Nat} (hinv : LockInv progs s)
    (hget : (progs i)[s.pc i]? = some Event.lock) (hfree : s.locked = false) :
    LockInv progs { locked := true, pc := Function.update s.pc i (s.pc i + 1) } := by
  have hpc : s.pc i = 0 := (hb i).next_lock hget
  have hlen := (hb i).length_ge
  have hnone : ∀ j, ¬ Holding progs s j := by
    intro j hj
    have := hinv.2.mpr ⟨j, hj⟩
    rw [hfree] at this
    exact Bool.noConfusion this
  have hi : Holding progs { locked := true, pc := Function.update s.pc i (s.pc i + 1) } i := by
    rw [holding_update]
    simp only [if_true]
    omega
  refine ⟨?_, ?_⟩
  · intro j k hj hk
    rw [holding_update] at hj hk
    by_cases hji : j = i
    · by_cases hki : k = i
      · rw [hji, hki]
      · rw [if_neg hki] at hk
        exact absurd hk (hnone k)
    · rw [if_neg hji] at hj
      exact absurd hj (hnone j)
  · exact ⟨fun _ => ⟨i, hi⟩, fun _ => rfl⟩

theorem LockInv.step_unlock {progs : Nat → List Event} (hb : ∀ i, Bracketed (progs i))
    {s : Sys} {i : Nat} (hinv : LockInv progs s)
    (hget : (progs i)[s.pc i]? = some Event.unlock) :
    LockInv progs { locked := false, pc := Function.update s.pc i (s.pc i + 1) } := by
  have hpc := (hb i).next_unlock hget
  have hi : Holding progs s i := ⟨hpc.1, by omega⟩
  have hnone : ∀ j, ¬ Holding progs
      { locked := false, pc := Function.update s.pc i (s.pc i + 1) } j := by
    intro j hj
    rw [holding_update] at hj
    by_cases hji : j = i
    · rw [if_pos hji] at hj
      omega
    · rw [if_neg hji] at hj
      exact hji (hinv.1 j i hj hi)
  refine ⟨fun j k hj _ => absurd hj (hnone j), ?_⟩
  constructor
  · intro h
    exact Bool.noConfusion h
  · rintro ⟨j, hj⟩
    exact absurd hj (hnone j)

theorem LockInv.step_other {progs : Nat → List Event} (hb : ∀ i, Bracketed (progs i))
    {s : Sys} {i : Nat} {e : Event} (hinv : LockInv progs s)
    (hget : (progs i)[s.pc i]? = some e) (hl : e ≠ Event.lock) (hu : e ≠ Event.unlock) :
    LockInv progs { locked := s.locked, pc := Function.update s.pc i (s.pc i + 1) } := by
  have hpc := (hb i).next_other hget hl hu
  have hi : Holding progs s i := ⟨hpc.1, by omega⟩
  have hsame : ∀ j, Holding progs
      { locked := s.locked, pc := Function.update s.pc i (s.pc i + 1) } j
        ↔ Holding progs s j := by
    intro j
    rw [holding_update]
    by_cases hji : j = i
    · rw [if_pos hji, hji]
      constructor
      · intro _
        exact hi
      · intro _
        omega
    · rw [if_neg hji]
  refine ⟨?_, ?_⟩
  · intro j k hj hk
    exact hinv.1 j k ((hsame j).mp hj) ((hsame k).mp hk)
  · constructor
    · intro h
      obtain ⟨j, hj⟩ := hinv.2.mp h
      exact ⟨j, (hsame j).mpr hj⟩
    · rintro ⟨j, hj⟩
      exact hinv.2.mpr ⟨j, (hsame j).mp hj⟩

theorem LockInv.step {progs : Nat → List Event} (hb : ∀ i, Bracketed (progs i))
    {s s1 : Sys} {i : Nat} (hinv : LockInv progs s) (hstep : step progs s i = some s1) :
    LockInv progs s1 := by
  unfold Aggregator.step at hstep
  rcases hget : (progs i)[s.pc i]? with _ | e
  · rw [hget] at hstep
    exact Option.noConfusion hstep
  · rw [hget] at hstep
    by_cases hl : e = Event.lock
    · subst hl
      by_cases hlocked : s.locked = true
      · simp [hlocked] at hstep
      · have hfree : s.locked = false := by simpa using hlocked
        simp [hfree] at hstep
        subst hstep
        exact hinv.step_lock hb hget hfree
    · by_cases hu : e = Event.unlock
      · subst hu
        by_cases hlocked : s.locked = true
        · simp [hlocked] at hstep
          subst hstep
          exact hinv.step_unlock hb hget
        · simp [hlocked] at hstep
      · have hs1 : s1 = { locked := s.locked, pc := Function.update s.pc i (s.pc i + 1) } := by
          cases e <;> simp_all
        rw [hs1]
        exact hinv.step_other hb hget hl hu

theorem LockInv.run {progs : Nat → List Event} (hb : ∀ i, Bracketed (progs i))
    (schedule : List Nat) {s s1 : Sys} (hinv : LockInv progs s)
    (hrun : run progs s schedule = some s1) : LockInv progs s1 := by
  induction schedule generalizing s with
  | nil =>
    simp [Aggregator.run] at hrun
    subst hrun
    exact hinv
  | cons i rest ih =>
    unfold Aggregator.run at hrun
    rcases hstep : Aggregator.step progs s i with _ | s2
    · rw [hstep] at hrun
      exact Option.noConfusion hrun
    · rw [hstep] at hrun
      exact ih (hinv.step hb hstep) hrun

theorem flush_has_no_enqueue (d : ServerlessDemultiplexer) (env : Env) (start : Time)
    (waitForSerializer : Bool) (batch : MetricSampleBatch) :
    Event.samplesChanSend batch ∉ (ForceFlushToSerializer d env start waitForSerializer).events := by
  by_cases hs : (concatSketches env.flushed).length > 0 <;>
    simp [ForceFlushToSerializer, stopIterableSeries, hs]

/-- C5: in every state reached by an interleaving of concurrent callers, each performing one
call of `ForceFlushToSerializer`, `AddTimeSample` or `AddTimeSampleBatch`: every call takes
the flush lock as its first effect and releases it as its last, with no lock or unlock in
between; no two callers are inside their critical section at once; the mutex is taken
exactly when some caller is inside; and a caller whose next effect is the enqueue on the
ingestion queue is an add call inside its own critical section while no other caller (so no
flush) is inside its own. -/
theorem flushLock_mutual_exclusion (d : ServerlessDemultiplexer) (calls : Nat → Call)
    (schedule : List Nat) (s : Sys)
    (hrun : run (fun i => (calls i).events d) Sys.init schedule = some s) :
    (∀ c : Call, ∃ body, c.events d = Event.lock :: (body ++ [Event.unlock])
        ∧ Event.lock ∉ body ∧ Event.unlock ∉ body)
      ∧ (∀ i j, insideCritical ((calls i).events d) (s.pc i) = true →
          insideCritical ((calls j).events d) (s.pc j) = true → i = j)
      ∧ (s.locked = true ↔ ∃ i, insideCritical ((calls i).events d) (s.pc i) = true)
      ∧ (∀ i batch, ((calls i).events d)[s.pc i]? = some (Event.samplesChanSend batch) →
          insideCritical ((calls i).events d) (s.pc i) = true
            ∧ (∀ env start waitForSerializer,
                calls i ≠ Call.flush env start waitForSerializer)
            ∧ ∀ j, j ≠ i → insideCritical ((calls j).events d) (s.pc j) = false) := by
  have hb : ∀ i, Bracketed ((fun i => (calls i).events d) i) :=
    fun i => call_bracketed d (calls i)
  have hinv : LockInv (fun i => (calls i).events d) s :=
    LockInv.run hb schedule (LockInv.init _) hrun
  have hin : ∀ i, insideCritical ((calls i).events d) (s.pc i) = true
      ↔ Holding (fun i => (calls i).events d) s i :=
    fun i => (call_bracketed d (calls i)).inside_iff (s.pc i)
  refine ⟨fun c => call_bracketed d c, ?_, ?_, ?_⟩
  · intro i j hi hj
    exact hinv.1 i j ((hin i).mp hi) ((hin j).mp hj)
  · rw [hinv.2]
    exact exists_congr (fun i => (hin i).symm)
  · intro i batch hget
    have hpc := (call_bracketed d (calls i)).next_other hget (by simp) (by simp)
    have hi : Holding (fun i => (calls i).events d) s i := ⟨hpc.1, Nat.lt_of_succ_lt hpc.2⟩
    refine ⟨(hin i).mpr hi, ?_, ?_⟩
    · intro env start waitForSerializer hc
      rw [hc] at hget
      exact flush_has_no_enqueue d env start waitForSerializer batch (List.getElem?_mem hget)
    · intro j hji
      cases hj : insideCritical ((calls j).events d) (s.pc j) with
      | false => rfl
      | true => exact absurd (hinv.1 j i ((hin j).mp hj) hi) hji

/-- Witness for C5: caller 0 completes a flush, then caller 1 takes the lock and reaches its
enqueue; the flush caller is then outside its critical section. -/
theorem flushLock_mutual_exclusion_witness :
    run (fun i => (exampleCalls i).events exampleDemux) Sys.init exampleSchedule
        = some ((run (fun i => (exampleCalls i).events exampleDemux) Sys.init
            exampleSchedule).getD Sys.init)
      ∧ ((run (fun i => (exampleCalls i).events exampleDemux) Sys.init
            exampleSchedule).getD Sys.init).pc 0 = 10
      ∧ ((exampleCalls 1).events exampleDemux)[((run
            (fun i => (exampleCalls i).events exampleDemux) Sys.init
            exampleSchedule).getD Sys.init).pc 1]?
          = some (Event.samplesChanSend exampleEnqueued)
      ∧ insideCritical ((exampleCalls 0).events exampleDemux)
          (((run (fun i => (exampleCalls i).events exampleDemux) Sys.init
            exampleSchedule).getD Sys.init).pc 0) = false :=
  ⟨rfl, rfl, rfl,
    ((flushLock_mutual_exclusion exampleDemux exampleCalls exampleSchedule
      ((run (fun i => (exampleCalls i).events exampleDemux) Sys.init
        exampleSchedule).getD Sys.init) rfl).2.2.2 1
      exampleEnqueued rfl).2.2 0 (by decide)⟩

end Aggregator

namespace strings

theorem compareChars_eq_zero (a b : List Char) : compareChars a b = 0 ↔ a = b := by
  induction a generalizing b with
  | nil => cases b <;> simp [compareChars]
  | cons x xs ih =>
    cases b with
    | nil => simp [compareChars]
    | cons y ys =>
      simp only [compareChars]
      by_cases h1 : x.toNat < y.toNat
      · have hne : x ≠ y := fun h => by subst h; exact absurd h1 (lt_irrefl _)
        simp [h1, hne]
      · by_cases h2 : y.toNat < x.toNat
        · have hne : x ≠ y := fun h => by subst h; exact absurd h2 (lt_irrefl _)
          simp [h1, h2, hne]
        · have heq : x = y := by
            apply Char.ext
            apply UInt32.ext
            have : x.toNat = y.toNat := by omega
            exact this
          simp [h1, h2, heq, ih]

theorem Compare_eq_zero (a b : String) : Compare a b = 0 ↔ a = b := by
  unfold Compare
  rw [compareChars_eq_zero]
  exact ⟨fun h => String.ext h, fun h => by rw [h]⟩

theorem Compare_beq_zero (a b : String) : (Compare a b == 0) = decide (a = b) := by
  by_cases h : a = b
  · subst h
    have h0 : Compare a a = 0 := (Compare_eq_zero a a).mpr rfl
    simp [h0]
  · have h0 : ¬ Compare a b = 0 := fun hc => h ((Compare_eq_zero a b).mp hc)
    simp [h0, h]

end strings

namespace InferredSpan

/-- C9: `CheckIsInferredSpan` is true exactly when the span's meta map is present and holds
the value `self` under the key `_inferred_span.tag_source`; it is false for the nil map, for
a missing key and for every other value (such as `lambda`). -/
theorem CheckIsInferredSpan_iff (span : Span) :
    tagInferredSpanTagSource = "_inferred_span.tag_source"
      ∧ (CheckIsInferredSpan span = true
        ↔ ∃ m, span.Meta = some m ∧ m.lookup tagInferredSpanTagSource = some "self")
      ∧ CheckIsInferredSpan span
          = (match span.Meta with
             | none => false
             | some m =>
               match m.lookup tagInferredSpanTagSource with
               | none => false
               | some v => decide (v = "self")) := by
  have hempty : ¬ ("" : String) = "self" := by decide
  obtain ⟨service, name, resource, meta⟩ := span
  refine ⟨rfl, ?_⟩
  cases meta with
  | none => simp [CheckIsInferredSpan, GoMap.index, strings.Compare_eq_zero, hempty]
  | some m =>
    cases hl : m.lookup tagInferredSpanTagSource with
    | none =>
      simp [CheckIsInferredSpan, GoMap.index, strings.Compare_eq_zero, hempty, hl]
    | some v =>
      simp [CheckIsInferredSpan, GoMap.index, strings.Compare_beq_zero, hl]

end InferredSpan

namespace strings

theorem cut_colon (l : List Char) :
    (cut [':'] l).map Prod.fst
      = if ':' ∈ l then some (l.takeWhile (fun c => c ≠ ':')) else none := by
  induction l with
  | nil => simp [cut]
  | cons c cs ih =>
    by_cases hc : c = ':'
    · subst hc
      simp [cut, List.isPrefixOf]
    · have hc2 : ¬ ':' = c := fun h => hc h.symm
      simp only [cut, List.isPrefixOf, Option.map_map]
      simp [hc, hc2]
      by_cases hmem : ':' ∈ cs
      · simp [hmem] at ih ⊢
        obtain ⟨a, ha⟩ := ih
        exact ⟨a, ha⟩
      · simp [hmem] at ih ⊢
        exact ih

theorem SplitN_colon (tag : String) :
    ((SplitN tag ":" 2).length = 2 ↔ ':' ∈ tag.data)
      ∧ (':' ∈ tag.data →
          (SplitN tag ":" 2).getD 0 "" = String.mk (tag.data.takeWhile (fun c => c ≠ ':'))) := by
  have hsep : (":" : String).data = [':'] := rfl
  have hcut := cut_colon tag.data
  unfold SplitN
  rw [hsep]
  simp only [List.cons_ne_nil, if_false]
  rcases h : cut [':'] tag.data with _ | ⟨a, b⟩
  · rw [h] at hcut
    by_cases hmem : ':' ∈ tag.data
    · simp [hmem] at hcut
    · simp [splitChars, h, hmem]
  · rw [h] at hcut
    by_cases hmem : ':' ∈ tag.data
    · simp [hmem] at hcut
      simp [splitChars, h, hmem, hcut]
    · simp [hmem] at hcut

end strings

namespace InferredSpan

theorem lookup_copy (k : String) (l : List (Sigma fun _ : String => String))
    (hl : l.NodupKeys) (acc : GoMap) :
    (l.foldl (fun output kv => output.insert kv.1 kv.2) acc).lookup k
      = (l.dlookup k).orElse (fun _ => acc.lookup k) := by
  induction l generalizing acc with
  | nil => simp
  | cons e rest ih =>
    obtain ⟨ek, ev⟩ := e
    have hnd := List.nodupKeys_cons.mp hl
    rw [List.foldl_cons, ih hnd.2]
    by_cases hk : k = ek
    · subst hk
      have hnone : rest.dlookup k = none := List.dlookup_eq_none.mpr hnd.1
      simp [hnone, List.dlookup_cons_eq]
    · have hne : k ≠ (⟨ek, ev⟩ : Sigma fun _ : String => String).1 := hk
      rw [List.dlookup_cons_ne rest _ hne, AList.lookup_insert_ne hk]

theorem lookup_erase_fold (k : String) (keys : List String) (m : GoMap) :
    (keys.foldl (fun output tagKey => output.erase tagKey) m).lookup k
      = if k ∈ keys then none else m.lookup k := by
  induction keys generalizing m with
  | nil => simp
  | cons x xs ih =>
    rw [List.foldl_cons, ih]
    by_cases hx : k = x
    · subst hx
      simp
    · by_cases hxs : k ∈ xs
      · simp [hxs]
      · simp [hxs, hx, AList.lookup_erase_ne hx]

theorem lookup_ddTags_fold (k : String) (ddTags : List String) (m : GoMap) :
    (ddTags.foldl (fun output tag =>
        let tagParts := strings.SplitN tag ":" 2
        if tagParts.length ≠ 2 then output
        else
          let tagKey := tagParts.getD 0 ""
          output.erase tagKey) m).lookup k
      = if ∃ tag ∈ ddTags, ':' ∈ tag.data ∧ k = keyBeforeColon tag then none
        else m.lookup k := by
  induction ddTags generalizing m with
  | nil => simp
  | cons t ts ih =>
    rw [List.foldl_cons, ih]
    have hsplit := strings.SplitN_colon t
    by_cases hts : ∃ tag ∈ ts, ':' ∈ tag.data ∧ k = keyBeforeColon tag
    · have hall : ∃ tag ∈ t :: ts, ':' ∈ tag.data ∧ k = keyBeforeColon tag := by
        obtain ⟨tag, hmem, h⟩ := hts
        exact ⟨tag, List.mem_cons_of_mem _ hmem, h⟩
      rw [if_pos hts, if_pos hall]
    · rw [if_neg hts]
      by_cases hc : ':' ∈ t.data
      · have hlen : (strings.SplitN t ":" 2).length = 2 := hsplit.1.mpr hc
        have hkey : (strings.SplitN t ":" 2).getD 0 "" = keyBeforeColon t := hsplit.2 hc
        simp only [hlen, ne_eq, not_true_eq_false, if_false, hkey]
        by_cases hk : k = keyBeforeColon t
        · have hall : ∃ tag ∈ t :: ts, ':' ∈ tag.data ∧ k = keyBeforeColon tag :=
            ⟨t, List.mem_cons_self _ _, hc, hk⟩
          rw [if_pos hall, hk, AList.lookup_erase]
        · have hall : ¬ ∃ tag ∈ t :: ts, ':' ∈ tag.data ∧ k = keyBeforeColon tag := by
            rintro ⟨tag, hmem, hcolon, hkt⟩
            rcases List.mem_cons.mp hmem with heq | hin
            · subst heq
              exact hk hkt
            · exact hts ⟨tag, hin, hcolon, hkt⟩
          rw [if_neg hall, AList.lookup_erase_ne hk]
      · have hlen : ¬ (strings.SplitN t ":" 2).length = 2 := fun h => hc (hsplit.1.mp h)
        have hall : ¬ ∃ tag ∈ t :: ts, ':' ∈ tag.data ∧ k = keyBeforeColon tag := by
          rintro ⟨tag, hmem, hcolon, hkt⟩
          rcases List.mem_cons.mp hmem with heq | hin
          · subst heq
            exact hc hcolon
          · exact hts ⟨tag, hin, hcolon, hkt⟩
        simp only [ne_eq, hlen, not_false_eq_true, if_true]
        rw [if_neg hall]

theorem FilterFunctionTags_skip (tags : TagKeys) (pre post : List String) (tag : String)
    (input : Option GoMap) (h : ':' ∉ tag.data) :
    FilterFunctionTags tags (pre ++ tag :: post) input
      = FilterFunctionTags tags (pre ++ post) input := by
  have hlen : ¬ (strings.SplitN tag ":" 2).length = 2 :=
    fun hc => h ((strings.SplitN_colon tag).1.mp hc)
  cases input with
  | none => rfl
  | some m =>
    simp only [FilterFunctionTags, List.foldl_append, List.foldl_cons, ne_eq, hlen,
      not_false_eq_true, if_true]

/-- C10: `FilterFunctionTags` returns nil for the nil map; for any other input it returns a
map whose entries are exactly the input's entries (same key, same value) whose key is
neither listed in `functionTagsToIgnore` nor the part before the first colon of a configured
tag that contains a colon; and a configured tag without a colon can be dropped from the
configured list without changing the result. -/
theorem FilterFunctionTags_spec (tags : TagKeys) (ddTags : List String) :
    FilterFunctionTags tags ddTags none = none
      ∧ (∀ input : GoMap, ∃ output : GoMap,
          FilterFunctionTags tags ddTags (some input) = some output
          ∧ ∀ (k v : String), output.lookup k = some v
              ↔ (input.lookup k = some v
                  ∧ k ∉ functionTagsToIgnore tags
                  ∧ ¬ ∃ tag ∈ ddTags, ':' ∈ tag.data ∧ k = keyBeforeColon tag))
      ∧ ∀ (pre post : List String) (tag : String) (input : Option GoMap), ':' ∉ tag.data →
          FilterFunctionTags tags (pre ++ tag :: post) input
            = FilterFunctionTags tags (pre ++ post) input := by
  refine ⟨rfl, fun input => ⟨_, rfl, ?_⟩,
    fun pre post tag input h => FilterFunctionTags_skip tags pre post tag input h⟩
  intro k v
  rw [lookup_erase_fold, lookup_ddTags_fold, lookup_copy k input.entries input.nodupKeys]
  have hin : (input.entries.dlookup k).orElse (fun _ => (∅ : GoMap).lookup k)
      = input.lookup k := by
    simp [AList.lookup]
  rw [hin]
  by_cases h1 : k ∈ functionTagsToIgnore tags
  · simp [h1]
  · by_cases h2 : ∃ tag ∈ ddTags, ':' ∈ tag.data ∧ k = keyBeforeColon tag
    · rw [if_neg h1, if_pos h2]
      simp [h2]
    · rw [if_neg h1, if_neg h2]
      simp [h1, h2]

end InferredSpan

namespace strconv

theorem ParseBool_true_iff (str : String) :
    ParseBool str = (true, none) ↔ str ∈ ["1", "t", "T", "TRUE", "true", "True"] := by
  unfold ParseBool
  split <;> simp_all

theorem ParseBool_ok_iff (str : String) :
    (ParseBool str).2 = none
      ↔ str ∈ ["1", "t", "T", "TRUE", "true", "True", "0", "f", "F", "FALSE", "false", "False"] := by
  unfold ParseBool
  split <;> simp_all

theorem ParseBool_error_value (str : String) (h : ¬ (ParseBool str).2 = none) :
    (ParseBool str).1 = false := by
  unfold ParseBool at h ⊢
  split <;> simp_all

end strconv

namespace InferredSpan

/-! ## Enabling inferred spans -/

theorem IsInferredSpansEnabled_eq (environ : String → Option String) :
    IsInferredSpansEnabled environ
      = (decide ((strconv.ParseBool (os.Getenv environ "DD_TRACE_ENABLED")).2 = none)
          && decide ((strconv.ParseBool (os.Getenv environ "DD_TRACE_MANAGED_SERVICES")).2 = none)
          && (strconv.ParseBool (os.Getenv environ "DD_TRACE_ENABLED")).1
          && (strconv.ParseBool (os.Getenv environ "DD_TRACE_MANAGED_SERVICES")).1) := by
  unfold IsInferredSpansEnabled
  rcases h1 : strconv.ParseBool (os.Getenv environ "DD_TRACE_ENABLED") with ⟨b1, e1⟩
  rcases h2 : strconv.ParseBool (os.Getenv environ "DD_TRACE_MANAGED_SERVICES") with ⟨b2, e2⟩
  cases e1 <;> cases e2 <;> simp

theorem IsInferredSpansEnabled_getenv (environ : String → Option String) :
    (IsInferredSpansEnabled environ = true
        ↔ strconv.ParseBool (os.Getenv environ "DD_TRACE_ENABLED") = (true, none)
          ∧ strconv.ParseBool (os.Getenv environ "DD_TRACE_MANAGED_SERVICES") = (true, none))
      ∧ (IsInferredSpansEnabled environ = true
        ↔ os.Getenv environ "DD_TRACE_ENABLED" ∈ ["1", "t", "T", "TRUE", "true", "True"]
          ∧ os.Getenv environ "DD_TRACE_MANAGED_SERVICES"
              ∈ ["1", "t", "T", "TRUE", "true", "True"])
      ∧ ((¬ (strconv.ParseBool (os.Getenv environ "DD_TRACE_ENABLED")).2 = none
            ∨ ¬ (strconv.ParseBool (os.Getenv environ "DD_TRACE_MANAGED_SERVICES")).2 = none) →
          IsInferredSpansEnabled environ = false)
      ∧ ((environ "DD_TRACE_ENABLED" = none ∨ environ "DD_TRACE_MANAGED_SERVICES" = none) →
          IsInferredSpansEnabled environ = false
            ∧ (¬ (strconv.ParseBool (os.Getenv environ "DD_TRACE_ENABLED")).2 = none
              ∨ ¬ (strconv.ParseBool
                    (os.Getenv environ "DD_TRACE_MANAGED_SERVICES")).2 = none)) := by
  have hempty : ¬ (strconv.ParseBool "").2 = none := by decide
  have hmain : IsInferredSpansEnabled environ = true
      ↔ strconv.ParseBool (os.Getenv environ "DD_TRACE_ENABLED") = (true, none)
        ∧ strconv.ParseBool (os.Getenv environ "DD_TRACE_MANAGED_SERVICES") = (true, none) := by
    rw [IsInferredSpansEnabled_eq]
    rcases strconv.ParseBool (os.Getenv environ "DD_TRACE_ENABLED") with ⟨b1, e1⟩
    rcases strconv.ParseBool (os.Getenv environ "DD_TRACE_MANAGED_SERVICES") with ⟨b2, e2⟩
    simp only [Bool.and_eq_true, decide_eq_true_eq, Prod.mk.injEq]
    tauto
  have herr : (¬ (strconv.ParseBool (os.Getenv environ "DD_TRACE_ENABLED")).2 = none
        ∨ ¬ (strconv.ParseBool (os.Getenv environ "DD_TRACE_MANAGED_SERVICES")).2 = none) →
      IsInferredSpansEnabled environ = false := by
    intro h
    rw [IsInferredSpansEnabled_eq]
    rcases h with h | h <;> simp [h]
  refine ⟨hmain, ?_, herr, ?_⟩
  · rw [hmain, strconv.ParseBool_true_iff, strconv.ParseBool_true_iff]
  · intro hunset
    have hbad : ¬ (strconv.ParseBool (os.Getenv environ "DD_TRACE_ENABLED")).2 = none
        ∨ ¬ (strconv.ParseBool (os.Getenv environ "DD_TRACE_MANAGED_SERVICES")).2 = none := by
      rcases hunset with h | h
      · left
        simpa [os.Getenv, h] using hempty
      · right
        simpa [os.Getenv, h] using hempty
    exact ⟨herr hbad, hbad⟩

theorem Getenv_of_set {environ : String → Option String} {key v : String}
    (h : environ key = some v) : os.Getenv environ key = v := by
  simp [os.Getenv, h]

/-- C11: for every environment, `IsInferredSpansEnabled` is true exactly when
`DD_TRACE_ENABLED` and `DD_TRACE_MANAGED_SERVICES` are both set to values that parse without
error and parse to true, that is to values among `1`, `t`, `T`, `TRUE`, `true`, `True`.
When both are set, the result is the conjunction of the two parsed values provided both
parse; it is false as soon as the value of one of them fails to parse, whatever the other
is, and as soon as one of them is unset (an unset variable is read as the empty string,
which fails to parse).  With `DD_TRACE_ENABLED=true` and `DD_TRACE_MANAGED_SERVICES=1` the
result is true. -/
theorem IsInferredSpansEnabled_iff (environ : String → Option String) :
    (IsInferredSpansEnabled environ = true
        ↔ ∃ v1 v2, environ "DD_TRACE_ENABLED" = some v1
            ∧ environ "DD_TRACE_MANAGED_SERVICES" = some v2
            ∧ strconv.ParseBool v1 = (true, none) ∧ strconv.ParseBool v2 = (true, none))
      ∧ (IsInferredSpansEnabled environ = true
        ↔ ∃ v1 v2, environ "DD_TRACE_ENABLED" = some v1
            ∧ environ "DD_TRACE_MANAGED_SERVICES" = some v2
            ∧ v1 ∈ ["1", "t", "T", "TRUE", "true", "True"]
            ∧ v2 ∈ ["1", "t", "T", "TRUE", "true", "True"])
      ∧ (∀ v1 v2, environ "DD_TRACE_ENABLED" = some v1 →
          environ "DD_TRACE_MANAGED_SERVICES" = some v2 →
          IsInferredSpansEnabled environ
            = (decide ((strconv.ParseBool v1).2 = none)
                && decide ((strconv.ParseBool v2).2 = none)
                && (strconv.ParseBool v1).1 && (strconv.ParseBool v2).1))
      ∧ (∀ v, (environ "DD_TRACE_ENABLED" = some v
            ∨ environ "DD_TRACE_MANAGED_SERVICES" = some v) →
          ¬ (strconv.ParseBool v).2 = none → IsInferredSpansEnabled environ = false)
      ∧ ((environ "DD_TRACE_ENABLED" = none ∨ environ "DD_TRACE_MANAGED_SERVICES" = none) →
          IsInferredSpansEnabled environ = false)
      ∧ (IsInferredSpansEnabled environ = true
        ↔ strconv.ParseBool (os.Getenv environ "DD_TRACE_ENABLED") = (true, none)
          ∧ strconv.ParseBool (os.Getenv environ "DD_TRACE_MANAGED_SERVICES") = (true, none))
      ∧ (IsInferredSpansEnabled environ = true
        ↔ os.Getenv environ "DD_TRACE_ENABLED" ∈ ["1", "t", "T", "TRUE", "true", "True"]
          ∧ os.Getenv environ "DD_TRACE_MANAGED_SERVICES"
              ∈ ["1", "t", "T", "TRUE", "true", "True"])
      ∧ ((¬ (strconv.ParseBool (os.Getenv environ "DD_TRACE_ENABLED")).2 = none
            ∨ ¬ (strconv.ParseBool (os.Getenv environ "DD_TRACE_MANAGED_SERVICES")).2 = none) →
          IsInferredSpansEnabled environ = false)
      ∧ IsInferredSpansEnabled exampleEnviron = true := by
  obtain ⟨hparse, hlist, herr, hunset⟩ := IsInferredSpansEnabled_getenv environ
  have hempty : ¬ strconv.ParseBool "" = (true, none) := by decide
  have hset : IsInferredSpansEnabled environ = true
      ↔ ∃ v1 v2, environ "DD_TRACE_ENABLED" = some v1
          ∧ environ "DD_TRACE_MANAGED_SERVICES" = some v2
          ∧ strconv.ParseBool v1 = (true, none) ∧ strconv.ParseBool v2 = (true, none) := by
    rw [hparse]
    constructor
    · rintro ⟨h1, h2⟩
      rcases hv1 : environ "DD_TRACE_ENABLED" with _ | v1
      · exact absurd (by simpa [os.Getenv, hv1] using h1) hempty
      · rcases hv2 : environ "DD_TRACE_MANAGED_SERVICES" with _ | v2
        · exact absurd (by simpa [os.Getenv, hv2] using h2) hempty
        · rw [Getenv_of_set hv1] at h1
          rw [Getenv_of_set hv2] at h2
          exact ⟨v1, v2, rfl, rfl, h1, h2⟩
    · rintro ⟨v1, v2, hv1, hv2, h1, h2⟩
      rw [Getenv_of_set hv1, Getenv_of_set hv2]
      exact ⟨h1, h2⟩
  refine ⟨hset, ?_, ?_, ?_, fun h => (hunset h).1, hparse, hlist, herr, by decide⟩
  · rw [hset]
    simp only [strconv.ParseBool_true_iff]
  · intro v1 v2 hv1 hv2
    rw [IsInferredSpansEnabled_eq, Getenv_of_set hv1, Getenv_of_set hv2]
  · intro v hv hbad
    apply herr
    rcases hv with hv | hv
    · left
      rw [Getenv_of_set hv]
      exact hbad
    · right
      rw [Getenv_of_set hv]
      exact hbad

end InferredSpan

namespace Aggregator

/-! ## The pool buffer and the index write -/

/-- C12: for every sample, every batch size of at least 1 and every buffer the pool hands
out under its contract for that batch size, the write of the sample at index 0 of the
buffer is in range and so is the slicing of the written buffer to length 1, which leaves
exactly the sample; `AddTimeSample` returns without a panic, so without an index error. -/
theorem AddTimeSample_pool_buffer_in_range (d : ServerlessDemultiplexer) (env : Env)
    (sample : MetricSample) (batchSize : Nat) (hsize : 1 ≤ batchSize)
    (hpool : PoolContract batchSize env.poolBatch) :
    (∃ batch1 out, env.poolBatch.setIndex 0 sample = some batch1
        ∧ batch1.sliceTo 1 = some out ∧ out.elems = [sample]
        ∧ (AddTimeSample d env sample).events
            = [Event.lock, Event.getBatch env.poolBatch, Event.samplesChanSend out,
               Event.unlock])
      ∧ (AddTimeSample d env sample).panicked = none := by
  obtain ⟨logPayloads, sink, flushed, now, ⟨elems, spare⟩⟩ := env
  obtain ⟨hlen, -⟩ := hpool
  cases elems with
  | nil =>
    simp [GoSlice.len] at hlen
    omega
  | cons x xs =>
    have hcap : 1 ≤ xs.length + 1 + spare.length := by omega
    simp [AddTimeSample, hcap, GoSlice.setIndex, GoSlice.sliceTo, GoSlice.len, GoSlice.cap]

/-- Witness for C12: batch size 2 and a pool buffer of length 2 and capacity 2. -/
theorem AddTimeSample_pool_buffer_in_range_witness :
    1 ≤ 2 ∧ PoolContract 2 examplePoolEnv.poolBatch
      ∧ (∃ batch1 out, examplePoolEnv.poolBatch.setIndex 0 exampleSample = some batch1
          ∧ batch1.sliceTo 1 = some out ∧ out.elems = [exampleSample]
          ∧ (AddTimeSample exampleDemux examplePoolEnv exampleSample).events
              = [Event.lock, Event.getBatch examplePoolEnv.poolBatch,
                 Event.samplesChanSend out, Event.unlock])
      ∧ (AddTimeSample exampleDemux examplePoolEnv exampleSample).panicked = none :=
  ⟨by decide, ⟨rfl, rfl⟩,
    AddTimeSample_pool_buffer_in_range exampleDemux examplePoolEnv exampleSample 2
      (by decide) ⟨rfl, rfl⟩⟩

end Aggregator
